import Mathlib

/-!
Verification development for the arrow2 core: shallow embedding of the
boolean/union array variants (`src/array/boolean/mod.rs`, `src/array/union/mod.rs`)
and of the filter kernel (`src/compute/filter.rs`), together with proofs of the
spec's testable properties.

Collaborator structures whose sources are not part of this repository snapshot
(`Bitmap`, `Buffer`, the growable abstraction, the slices iterator, primitive and
utf8 array payloads, scalar extraction) are modelled from the spec; every such
definition carries a doc comment starting with `Modelled from the spec:`.
Machine integers are modelled as `Int`/`Nat`; casts that wrap in the source
(`as i8`, `as usize`) are modelled with explicit modular arithmetic.
-/

namespace Arrow2

/-- Result of a Rust call that either aborts the process (a `panic`-style
assertion failure) or returns normally.  A fatal abort is distinct from a typed
recoverable error (`Except` below), mirroring the two error classes of spec §7. -/
inductive PanicOr (α : Type) where
  | panic (msg : String)
  | ok (val : α)
deriving DecidableEq

/-- Typed recoverable error carried by a `Result` in the source. -/
inductive ArrowError where
  | invalidArgumentError (msg : String)
deriving DecidableEq

/-- Modelled from the spec (§3): a bit-packed, immutable sequence of booleans
with `len`, per-bit access, a null count (number of unset bits), O(1) slicing and
bitwise AND.  The backing bytes are abstracted to a list of bits. -/
structure Bitmap where
  bits : List Bool
deriving DecidableEq

/-- Modelled from the spec: number of bits of the bitmap. -/
def Bitmap.len (b : Bitmap) : Nat := b.bits.length

/-- Modelled from the spec: bit at position `i` (callers stay in bounds). -/
def Bitmap.get_bit (b : Bitmap) (i : Nat) : Bool := b.bits.getD i false

/-- Modelled from the spec: cached number of unset bits. -/
def Bitmap.null_count (b : Bitmap) : Nat := b.bits.count false

/-- Modelled from the spec: bitwise AND of two same-length bitmaps
(the `values & validities` operation used by the filter kernel). -/
def Bitmap.and (a b : Bitmap) : Bitmap :=
  ⟨(a.bits.zip b.bits).map (fun p => p.1 && p.2)⟩

/-- Modelled from the spec: unchecked O(1) slice of a bitmap window. -/
def Bitmap.slice_unchecked (b : Bitmap) (offset length : Nat) : Bitmap :=
  ⟨(b.bits.drop offset).take length⟩

/-- Modelled from the spec: zeroed-allocation constructor (all bits unset). -/
def Bitmap.new_zeroed (length : Nat) : Bitmap := ⟨List.replicate length false⟩

/-- Modelled from the spec: the empty bitmap. -/
def Bitmap.new : Bitmap := ⟨[]⟩

/-- Union layout mode (`crate::datatypes::UnionMode`). -/
inductive UnionMode where
  | Sparse
  | Dense
deriving DecidableEq

def UnionMode.is_sparse : UnionMode → Bool
  | .Sparse => true
  | .Dense => false

/-- Flat (non-nested) logical types appearing in the claims; union member
fields are restricted to these in the model. -/
inductive FlatType where
  | Int32
  | Utf8
  | LargeUtf8
  | Boolean
deriving DecidableEq

/-- Logical type (`crate::datatypes::DataType`), restricted to the variants the
claims exercise: flat types and unions of named flat fields with optional
discriminant ids and a sparse/dense mode. -/
inductive DataType where
  | flat (t : FlatType)
  | union (fields : List (String × FlatType)) (ids : Option (List Int)) (mode : UnionMode)
deriving DecidableEq

/-- Physical type (`crate::datatypes::PhysicalType`) for the modelled variants. -/
inductive PhysicalType where
  | primitiveInt32
  | utf8
  | largeUtf8
  | boolean
  | union
deriving DecidableEq

def FlatType.to_physical_type : FlatType → PhysicalType
  | .Int32 => .primitiveInt32
  | .Utf8 => .utf8
  | .LargeUtf8 => .largeUtf8
  | .Boolean => .boolean

def DataType.to_physical_type : DataType → PhysicalType
  | .flat t => t.to_physical_type
  | .union _ _ _ => .union

/-- Wrapping cast to `i8` (`x as i8` on an `i32` in the source). -/
def wrap8 (x : Int) : Int := (x + 128) % 256 - 128

/-- Wrapping cast to `usize` (`x as usize` in the source); the claims only
exercise non-negative values, where this is the identity on the numeral. -/
def intToUsize (x : Int) : Nat := (x % (2 ^ 64 : Int)).toNat

/-- Modelled from the spec (§3): a primitive (fixed-width) array: logical type,
buffer of values (the claims use the 32-bit integer instantiation, values
carried as `Int`), optional validity.  The `PrimitiveArray` source file is not
part of this snapshot. -/
structure PrimitiveArray where
  data_type : DataType
  values : List Int
  validity : Option Bitmap
deriving DecidableEq

/-- `BooleanArray` (`src/array/boolean/mod.rs`): a bitmap of values plus an
optional validity bitmap. -/
structure BooleanArray where
  data_type : DataType
  values : Bitmap
  validity : Option Bitmap
deriving DecidableEq

/-- Modelled from the spec (§3): a Utf8 array; the offsets+bytes payload of the
source (not in this snapshot) is abstracted to the list of its string values. -/
structure Utf8Array where
  data_type : DataType
  values : List String
  validity : Option Bitmap
deriving DecidableEq

/-- `BooleanArray::len`. -/
def BooleanArray.len (a : BooleanArray) : Nat := a.values.len

/-- `BooleanArray::value`. -/
def BooleanArray.value (a : BooleanArray) (i : Nat) : Bool := a.values.get_bit i

/-- `BooleanArray::slice_unchecked`: slices values and validity windows. -/
def BooleanArray.slice_unchecked (a : BooleanArray) (offset length : Nat) : BooleanArray :=
  { data_type := a.data_type
    values := a.values.slice_unchecked offset length
    validity := a.validity.map (fun x => x.slice_unchecked offset length) }

/-- `BooleanArray::slice`: checked slice; asserts `offset + length <= self.len()`. -/
def BooleanArray.slice (a : BooleanArray) (offset length : Nat) : PanicOr BooleanArray :=
  if offset + length ≤ a.len then
    .ok (a.slice_unchecked offset length)
  else
    .panic "the offset of the new Buffer cannot exceed the existing length"

/-- `BooleanArray::with_validity`: replaces (does not merge) the validity
bitmap; aborts if a bitmap of the wrong length is supplied. -/
def BooleanArray.with_validity (a : BooleanArray) (validity : Option Bitmap) : PanicOr BooleanArray :=
  if (match validity with
      | some bitmap => bitmap.len != a.len
      | none => false : Bool) then
    .panic "validity should be as least as large as the array"
  else
    .ok { a with validity := validity }

/-- `BooleanArray::from_data`: asserts validity length and physical type. -/
def BooleanArray.from_data (data_type : DataType) (values : Bitmap)
    (validity : Option Bitmap) : PanicOr BooleanArray :=
  if (match validity with
      | some v => values.len != v.len
      | none => false : Bool) then
    .panic "assertion failed: values.len() == validity.len()"
  else if data_type.to_physical_type ≠ PhysicalType.boolean then
    .panic "BooleanArray can only be initialized with DataType::Boolean"
  else
    .ok { data_type := data_type, values := values, validity := validity }

/-- Dynamically typed array (`&dyn Array`) over the modelled variants; the spec
(§9) prescribes exactly this closed tagged-union reimplementation of the
source's type-erased `dyn Array`. -/
inductive ArrayD where
  | primitive (a : PrimitiveArray)
  | boolean (a : BooleanArray)
  | utf8 (a : Utf8Array)
deriving DecidableEq

/-- `Array::len` for the modelled variants. -/
def ArrayD.len : ArrayD → Nat
  | .primitive p => p.values.length
  | .boolean b => b.len
  | .utf8 u => u.values.length

/-- `Array::data_type`. -/
def ArrayD.data_type : ArrayD → DataType
  | .primitive p => p.data_type
  | .boolean b => b.data_type
  | .utf8 u => u.data_type

/-- `Array::validity`. -/
def ArrayD.validity : ArrayD → Option Bitmap
  | .primitive p => p.validity
  | .boolean b => b.validity
  | .utf8 u => u.validity

/-- Whether `as_any().downcast_ref()` for the physical type of `data_type`
succeeds on this concrete variant (the kernels downcast after dispatching on
`data_type().to_physical_type()`). -/
def ArrayD.downcastOk : ArrayD → Bool
  | .primitive p => p.data_type.to_physical_type == PhysicalType.primitiveInt32
  | .boolean b => b.data_type.to_physical_type == PhysicalType.boolean
  | .utf8 u =>
      (u.data_type.to_physical_type == PhysicalType.utf8) ||
      (u.data_type.to_physical_type == PhysicalType.largeUtf8)

/-- Invariant of spec §3: validity, when present, has the array's length. -/
def validityLenOk : Option Bitmap → Nat → Bool
  | none, _ => true
  | some b, n => b.len == n

/-- Well-formed array: logical type resolves to the variant's physical type
and the validity length invariant holds (spec §3). -/
def ArrayD.wfb (a : ArrayD) : Bool :=
  a.downcastOk && validityLenOk a.validity a.len

/-- Well-formed boolean mask: validity length invariant (spec §3). -/
def BooleanArray.wfb (m : BooleanArray) : Bool :=
  validityLenOk m.validity m.len

/-- Scalar value, the result of reading one slot of an array.  Modelled from
the spec: scalar-value extraction (`new_scalar`) is an excluded collaborator;
a scalar carries the slot's validity and its value. -/
inductive ScalarV where
  | intS (valid : Bool) (v : Int)
  | boolS (valid : Bool) (v : Bool)
  | strS (valid : Bool) (v : String)
deriving DecidableEq

/-- Modelled from the spec: reading the element of an array at position `i`
(`new_scalar(field, index)`), yielding its validity bit and value;
out-of-bounds reads are a fatal precondition violation (`none`). -/
def ArrayD.read : ArrayD → Nat → Option ScalarV
  | .primitive p, i =>
      (p.values.get? i).map (fun v =>
        .intS (match p.validity with | some b => b.get_bit i | none => true) v)
  | .boolean b, i =>
      if i < b.len then
        some (.boolS (match b.validity with | some v => v.get_bit i | none => true) (b.value i))
      else none
  | .utf8 u, i =>
      (u.values.get? i).map (fun v =>
        .strS (match u.validity with | some b => b.get_bit i | none => true) v)

/-- `UnionArray` (`src/array/union/mod.rs`): per-slot discriminants, child
fields, optional dense offsets, an optional discriminant hash (modelled as an
association list from discriminant to field index; the source also stores the
field itself, which is always `fields[index]`), and the slice offset. -/
structure UnionArray where
  types : List Int
  fields_hash : Option (List (Int × Nat))
  fields : List ArrayD
  offsets : Option (List Int)
  data_type : DataType
  offset : Nat
deriving DecidableEq

/-- `UnionArray::get_all`: destructures `DataType::Union`; any other logical
type is a fatal error (`none`). -/
def UnionArray.get_all (data_type : DataType) :
    Option (List (String × FlatType) × Option (List Int) × UnionMode) :=
  match data_type with
  | .union fields ids mode => some (fields, ids, mode)
  | .flat _ => none

/-- `UnionArray::from_data`: aborts when the field count disagrees with the
declared members, when some field's logical type disagrees, or when offsets
presence disagrees with sparseness; performs no validation of the contents of
`types` or `offsets`. -/
def UnionArray.from_data (data_type : DataType) (types : List Int)
    (fields : List ArrayD) (offsets : Option (List Int)) : PanicOr UnionArray :=
  match UnionArray.get_all data_type with
  | none => .panic "Wrong datatype passed to UnionArray."
  | some (f, ids, mode) =>
    if f.length ≠ fields.length then
      .panic "The number of fields must equal the number of fields in the Union DataType"
    else if ¬ ((f.zip fields).all fun p => DataType.flat p.1.2 == p.2.data_type) then
      .panic "All fields datatype in the union must equal the datatypes on the fields."
    else if offsets.isNone ≠ mode.is_sparse then
      .panic "Sparsness flag must equal to noness of offsets in UnionArray"
    else
      .ok { data_type := data_type
            fields_hash := ids.map (fun l => ((l.map wrap8).enum.zip fields).map
              (fun p => (p.1.2, p.1.1)))
            fields := fields
            offsets := offsets
            types := types
            offset := 0 }

/-- `UnionArray::len`. -/
def UnionArray.len (u : UnionArray) : Nat := u.types.length

/-- `UnionArray::slice`: slices the `types` buffer (a checked buffer slice) and
accumulates `offset`; `fields` and `offsets` are cloned unchanged. -/
def UnionArray.slice (u : UnionArray) (offset length : Nat) : PanicOr UnionArray :=
  if offset + length ≤ u.types.length then
    .ok { data_type := u.data_type
          fields := u.fields
          fields_hash := u.fields_hash
          types := (u.types.drop offset).take length
          offsets := u.offsets
          offset := u.offset + offset }
  else
    .panic "the offset of the new Buffer cannot exceed the existing length"

/-- `UnionArray::field`: the child holding discriminant `type_`, via the hash
when present, else by indexing `fields` with the discriminant itself. -/
def UnionArray.field (u : UnionArray) (type_ : Int) : Option ArrayD :=
  match u.fields_hash with
  | some h => (List.lookup type_ h).bind (fun i => u.fields.get? i)
  | none => u.fields.get? (intToUsize type_)

/-- `UnionArray::field_slot`: the in-field position of slot `index`:
`offsets[index]` when dense, `index` itself when sparse.  Note the source
never consults `self.offset` here and never slices `offsets`. -/
def UnionArray.field_slot (u : UnionArray) (index : Nat) : Option Nat :=
  match u.offsets with
  | some x => (x.get? index).map intToUsize
  | none => some index

/-- `UnionArray::index`: the `(field index, in-field slot)` pair selected by
slot `index`. -/
def UnionArray.index (u : UnionArray) (index : Nat) : Option (Nat × Nat) :=
  match u.types.get? index with
  | none => none
  | some type_ =>
    match (match u.fields_hash with
           | some h => List.lookup type_ h
           | none => some (intToUsize type_)) with
    | none => none
    | some field_index =>
      match u.field_slot index with
      | none => none
      | some slot => some (field_index, slot)

/-- `UnionArray::value`: reads slot `index` as a scalar, resolving the field by
discriminant and the in-field position by `field_slot`. -/
def UnionArray.value (u : UnionArray) (index : Nat) : Option ScalarV :=
  (u.types.get? index).bind (fun type_ =>
    (u.field type_).bind (fun field =>
      (u.field_slot index).bind (fun idx => field.read idx)))

/-- `impl Array for UnionArray`: a union never carries a validity bitmap. -/
def UnionArray.validity (_ : UnionArray) : Option Bitmap := none

/-- `impl Array for UnionArray`: setting validity on a union is a fatal error
for every argument. -/
def UnionArray.with_validity (_ : UnionArray) (_ : Option Bitmap) : PanicOr UnionArray :=
  .panic "cannot set validity of a union array"

/-- SIMD lane count of the `i32` instantiation in `crate::types::simd`
(`i32x16`, whose mask chunk `u16` also carries exactly `LANES` bits, so the
value chunks and the bit chunks of the filter loops are equally wide). -/
def LANES : Nat := 16

/-- Helper for `chunks_exact`: fuelled structural recursion (the fuel is the
list length, which strictly bounds the number of chunks). -/
def chunksExactF {α : Type} : Nat → Nat → List α → List (List α) × List α
  | 0, _, l => ([], l)
  | fuel + 1, n, l =>
    if n = 0 ∨ l.length < n then ([], l)
    else
      let rest := chunksExactF fuel n (l.drop n)
      (l.take n :: rest.1, rest.2)

/-- Rust's `chunks_exact(n)` (and the bit-chunk iterators of
`crate::bitmap::utils`): the maximal list of exact `n`-chunks plus the
remainder. -/
def chunksExact {α : Type} (n : Nat) (l : List α) : List (List α) × List α :=
  chunksExactF l.length n l

/-- Selection of the entries of `values` whose mask bit is set, in order: the
semantics of one `zip`-and-copy-on-hit loop of the filter kernel. -/
def maskSelect {α : Type} (values : List α) (mask : List Bool) : List α :=
  (values.zip mask).filterMap (fun p => if p.2 then some p.1 else none)

/-- `nonnull_filter_impl` (`src/compute/filter.rs`): chunk values and mask bits
into `lanes`-wide groups, copy each value whose mask bit is set (destination
advances only on a hit), then process the remainders element-by-element.  The
source's trailing `set_len(filter_count)` is justified by
`nonnull_filter_impl_eq` together with `maskSelect_length`. -/
def nonnull_filter_impl (lanes : Nat) (values : List Int) (mask_bits : List Bool) : List Int :=
  let vc := chunksExact lanes values
  let mc := chunksExact lanes mask_bits
  ((vc.1.zip mc.1).flatMap (fun p => maskSelect p.1 p.2)) ++ maskSelect vc.2 mc.2

/-- The single pass of `null_filter_impl` as a list of (value, validity-bit)
pairs, in destination order: values, validity and mask are chunked with the
same width and, for every set mask bit, the value is written and its validity
bit pushed. -/
def null_filter_core (lanes : Nat) (values : List Int) (validity : List Bool)
    (mask_bits : List Bool) : List (Int × Bool) :=
  let vc := chunksExact lanes values
  let lc := chunksExact lanes validity
  let mc := chunksExact lanes mask_bits
  (((vc.1.zip lc.1).zip mc.1).flatMap (fun p => maskSelect (p.1.1.zip p.1.2) p.2)) ++
    maskSelect (vc.2.zip lc.2) mc.2

/-- `null_filter_impl` (`src/compute/filter.rs`): same pass as
`nonnull_filter_impl` but additionally copying the source validity bit of every
selected slot, keeping values and validity slot-aligned. -/
def null_filter_impl (lanes : Nat) (values : List Int) (validity : List Bool)
    (mask_bits : List Bool) : List Int × List Bool :=
  ((null_filter_core lanes values validity mask_bits).map Prod.fst,
   (null_filter_core lanes values validity mask_bits).map Prod.snd)

/-- `nonnull_filter_simd`: asserts `values.len() == mask.len()` and runs the
chunked pass (both branches of the source's `offset == 0` test chunk the mask
with the same width, so they are one function here).  The filter count
`mask.len() - mask.null_count()` pre-sizes the destination. -/
def nonnull_filter_simd (values : List Int) (mask : Bitmap) : PanicOr (List Int) :=
  if values.length ≠ mask.len then
    .panic "assertion failed: values.len() == mask.len()"
  else
    .ok (nonnull_filter_impl LANES values mask.bits)

/-- `null_filter_simd`: as `nonnull_filter_simd`, for a source with validity. -/
def null_filter_simd (values : List Int) (validity : Bitmap) (mask : Bitmap) :
    PanicOr (List Int × List Bool) :=
  if values.length ≠ mask.len then
    .panic "assertion failed: values.len() == mask.len()"
  else
    .ok (null_filter_impl LANES values validity.bits mask.bits)

/-- Modelled from the spec (§3): conversion of a mutable validity accumulator
into an optional validity bitmap (`MutableBitmap` into `Option<Bitmap>`);
`validity: None` means "no nulls possible", so an accumulator whose null count
is zero converts to `none`. -/
def mutableIntoOption (bits : List Bool) : Option Bitmap :=
  if bits.count false > 0 then some ⟨bits⟩ else none

/-- `filter_nonnull_primitive`: asserts equal lengths, then compacts values
(and validity, when the source carries one) through the SIMD pass. -/
def filter_nonnull_primitive (array : PrimitiveArray) (mask : Bitmap) :
    PanicOr PrimitiveArray :=
  if array.values.length ≠ mask.len then
    .panic "assertion failed: array.len() == mask.len()"
  else
    match array.validity with
    | some validity =>
      match null_filter_simd array.values validity mask with
      | .panic msg => .panic msg
      | .ok (values, new_validity) =>
        .ok { data_type := array.data_type
              values := values
              validity := mutableIntoOption new_validity }
    | none =>
      match nonnull_filter_simd array.values mask with
      | .panic msg => .panic msg
      | .ok values =>
        .ok { data_type := array.data_type, values := values, validity := none }

/-- `filter_primitive`: delegates to `filter_nonnull_primitive` on the mask's
values bitmap (the mask's validity was already folded in by `filter`). -/
def filter_primitive (array : PrimitiveArray) (mask : BooleanArray) :
    PanicOr PrimitiveArray :=
  filter_nonnull_primitive array mask.values

/-- Helper of `slicesRuns`: prepend position `i` (a set bit) to a run list,
merging it into the head run when that run starts right after it. -/
def pushRun (i : Nat) : List (Nat × Nat) → List (Nat × Nat)
  | [] => [(i, 1)]
  | (s, l) :: rs => if s = i + 1 then (i, l + 1) :: rs else (i, 1) :: (s, l) :: rs

/-- Helper of `slicesRuns`: scan the bits from position `i`, merging each set
bit into the run that starts right after it. -/
def slicesRunsGo : Nat → List Bool → List (Nat × Nat)
  | _, [] => []
  | i, b :: rest =>
    if b then pushRun i (slicesRunsGo (i + 1) rest)
    else slicesRunsGo (i + 1) rest

/-- Modelled from the spec (§4.4): `SlicesIterator` — the run-length encoding
of the contiguous `true` spans of a mask, as (start, length) pairs. -/
def slicesRuns (bits : List Bool) : List (Nat × Nat) := slicesRunsGo 0 bits

/-- Modelled from the spec (§4.4): `SlicesIterator::slots` — the total number
of set bits of the mask. -/
def slicesSlots (bits : List Bool) : Nat := bits.count true

/-- Validity of an array as explicit bits: the bitmap's bits when present, else
all-true (spec §3: `None` means no nulls possible). -/
def validityBits (validity : Option Bitmap) (len : Nat) : List Bool :=
  match validity with
  | some b => b.bits
  | none => List.replicate len true

/-- Concatenation of the element windows `[start, start+len)` of `values`, one
per run: the values accumulated by driving a growable with `extend` calls. -/
def growableRuns {α : Type} (values : List α) (runs : List (Nat × Nat)) : List α :=
  runs.flatMap (fun r => (values.drop r.1).take r.2)

/-- Whether every run window lies inside a source of length `len`. -/
def runsInBounds (runs : List (Nat × Nat)) (len : Nat) : Bool :=
  runs.all (fun r => r.1 + r.2 ≤ len)

/-- Modelled from the spec (§4.5): the growable abstraction, specialised to the
filter kernel's use: one source array, one `extend(0, start, len)` call per
run, finalized into an immutable array.  Each extend appends the window's
values and validity; the output tracks validity exactly when a null is
appended (spec §4.5 with the finalization of `mutableIntoOption`).  Dispatch
is on the physical type with a downcast of the source; an out-of-bounds extend
is a fatal precondition violation. -/
def growableFilter (src : ArrayD) (runs : List (Nat × Nat)) : PanicOr ArrayD :=
  if ¬ src.downcastOk then .panic "downcast failed"
  else if ¬ runsInBounds runs src.len then .panic "growable extend out of bounds"
  else
    let val := mutableIntoOption (growableRuns (validityBits src.validity src.len) runs)
    match src with
    | .primitive p => .ok (.primitive { data_type := p.data_type
                                        values := growableRuns p.values runs
                                        validity := val })
    | .boolean b => .ok (.boolean { data_type := b.data_type
                                    values := ⟨growableRuns b.values.bits runs⟩
                                    validity := val })
    | .utf8 u => .ok (.utf8 { data_type := u.data_type
                              values := growableRuns u.values runs
                              validity := val })

/-- The closure built by `build_filter` (`src/compute/filter.rs`): the true-run
decomposition of the mask's values bitmap (its validity is not consulted) is
precomputed once; the closure dispatches on the argument's physical type,
downcasts, and drives a growable with the precomputed runs. -/
def build_filter_closure (filt : BooleanArray) (array : ArrayD) : PanicOr ArrayD :=
  let chunks := slicesRuns filt.values.bits
  match array.data_type.to_physical_type with
  | .primitiveInt32 =>
    match array with
    | .primitive _ => growableFilter array chunks
    | _ => .panic "downcast failed"
  | .utf8 =>
    match array with
    | .utf8 _ => growableFilter array chunks
    | _ => .panic "downcast failed"
  | .largeUtf8 =>
    match array with
    | .utf8 _ => growableFilter array chunks
    | _ => .panic "downcast failed"
  | _ => growableFilter array chunks

/-- `build_filter`: returns (always `Ok`) the prepared filter closure. -/
def build_filter (filt : BooleanArray) : Except ArrowError (ArrayD → PanicOr ArrayD) :=
  .ok (build_filter_closure filt)

/-- Dispatch arm of `filter`, reached once the mask carries no validity:
primitive physical types go through the SIMD compaction, every other type
through a growable driven by the slices iterator. -/
def filterDispatch (array : ArrayD) (filt : BooleanArray) :
    PanicOr (Except ArrowError ArrayD) :=
  match array.data_type.to_physical_type with
  | .primitiveInt32 =>
    match array with
    | .primitive a =>
      match filter_primitive a filt with
      | .panic msg => .panic msg
      | .ok r => .ok (.ok (.primitive r))
    | _ => .panic "downcast failed"
  | _ =>
    match growableFilter array (slicesRuns filt.values.bits) with
    | .panic msg => .panic msg
    | .ok r => .ok (.ok r)

/-- `filter` (`src/compute/filter.rs`): when the mask carries a validity
bitmap, its values are first ANDed with it and the source recurses into
`filter` with the rebuilt non-nullable mask; that recursive call reaches the
dispatch below, embedded directly. -/
def filter (array : ArrayD) (filt : BooleanArray) : PanicOr (Except ArrowError ArrayD) :=
  match filt.validity with
  | some validities =>
    filterDispatch array
      { data_type := DataType.flat FlatType.Boolean
        values := filt.values.and validities
        validity := none }
  | none => filterDispatch array filt

/-- Number of effective mask slots (claim-side specification): slots whose
value bit is set and which are non-null. -/
def effectiveCount (m : BooleanArray) : Nat :=
  (m.values.bits.zip (validityBits m.validity m.len)).countP (fun p => p.1 && p.2)

/-- Specification-side description of a filtered array: every variant keeps its
data type, selects the values at the mask's set bits in order and carries the
correspondingly selected validity (normalized through `mutableIntoOption`). -/
def mkFiltered (a : ArrayD) (bits : List Bool) : ArrayD :=
  let val := mutableIntoOption (maskSelect (validityBits a.validity a.len) bits)
  match a with
  | .primitive p => .primitive { data_type := p.data_type
                                 values := maskSelect p.values bits
                                 validity := val }
  | .boolean b => .boolean { data_type := b.data_type
                             values := ⟨maskSelect b.values.bits bits⟩
                             validity := val }
  | .utf8 u => .utf8 { data_type := u.data_type
                       values := maskSelect u.values bits
                       validity := val }

/-! Helper lemmas. -/

theorem chunksExactF_congr {α : Type} :
    ∀ (f₁ f₂ n : Nat) (l : List α), l.length ≤ f₁ → l.length ≤ f₂ →
      chunksExactF f₁ n l = chunksExactF f₂ n l := by
  intro f₁
  induction f₁ with
  | zero =>
    intro f₂ n l h₁ h₂
    have : l = [] := List.eq_nil_of_length_eq_zero (Nat.le_zero.mp h₁)
    subst this
    cases f₂ with
    | zero => rfl
    | succ f => rcases Nat.eq_zero_or_pos n with h | h <;> simp [chunksExactF, h]
  | succ f ih =>
    intro f₂ n l h₁ h₂
    cases f₂ with
    | zero =>
      have : l = [] := List.eq_nil_of_length_eq_zero (Nat.le_zero.mp h₂)
      subst this
      rcases Nat.eq_zero_or_pos n with h | h <;> simp [chunksExactF, h]
    | succ f' =>
      simp only [chunksExactF]
      by_cases hc : n = 0 ∨ l.length < n
      · simp [hc]
      · simp only [hc, if_false]
        push_neg at hc
        have hrec := ih f' n (l.drop n) (by simp; omega) (by simp; omega)
        rw [hrec]

theorem chunksExact_small {α : Type} {n : Nat} {l : List α}
    (h : n = 0 ∨ l.length < n) : chunksExact n l = ([], l) := by
  unfold chunksExact
  cases hl : l.length with
  | zero => rfl
  | succ m => rw [hl] at h; simp [chunksExactF, hl, h]

theorem chunksExact_step {α : Type} {n : Nat} {l : List α}
    (h0 : 0 < n) (hl : n ≤ l.length) :
    chunksExact n l =
      ((l.take n) :: (chunksExact n (l.drop n)).1, (chunksExact n (l.drop n)).2) := by
  unfold chunksExact
  obtain ⟨m, hm⟩ : ∃ m, l.length = m + 1 := ⟨l.length - 1, by omega⟩
  rw [hm]
  simp only [chunksExactF]
  have hc : ¬ (n = 0 ∨ l.length < n) := by omega
  rw [if_neg hc]
  have : chunksExactF m n (l.drop n) = chunksExactF (l.drop n).length n (l.drop n) :=
    chunksExactF_congr m (l.drop n).length n (l.drop n) (by simp; omega) (Nat.le_refl _)
  rw [this]

@[simp]
theorem maskSelect_nil_left {α : Type} (ms : List Bool) :
    maskSelect ([] : List α) ms = [] := by
  simp [maskSelect]

@[simp]
theorem maskSelect_nil_right {α : Type} (vs : List α) : maskSelect vs [] = [] := by
  simp [maskSelect]

theorem maskSelect_cons {α : Type} (v : α) (vs : List α) (b : Bool) (bs : List Bool) :
    maskSelect (v :: vs) (b :: bs) =
      if b then v :: maskSelect vs bs else maskSelect vs bs := by
  simp only [maskSelect, List.zip_cons_cons, List.filterMap_cons]
  cases b <;> simp

theorem maskSelect_append {α : Type} {as cs : List α} {bs ds : List Bool}
    (h : as.length = bs.length) :
    maskSelect (as ++ cs) (bs ++ ds) = maskSelect as bs ++ maskSelect cs ds := by
  simp only [maskSelect]
  rw [List.zip_append h, List.filterMap_append]

theorem maskSelect_length {α : Type} :
    ∀ (vs : List α) (ms : List Bool), vs.length = ms.length →
      (maskSelect vs ms).length = ms.count true := by
  intro vs
  induction vs with
  | nil =>
    intro ms h
    have : ms = [] := List.eq_nil_of_length_eq_zero h.symm
    simp [this]
  | cons v vs ih =>
    intro ms h
    cases ms with
    | nil => simp at h
    | cons m ms' =>
      rw [maskSelect_cons]
      have := ih ms' (by simpa using h)
      cases m <;> simp [List.count_cons, this]

theorem maskSelect_map_fst {α β : Type} :
    ∀ (xs : List α) (ys : List β) (ms : List Bool), xs.length = ys.length →
      (maskSelect (xs.zip ys) ms).map Prod.fst = maskSelect xs ms := by
  intro xs
  induction xs with
  | nil =>
    intro ys ms h
    simp
  | cons x xs ih =>
    intro ys ms h
    cases ys with
    | nil => simp at h
    | cons y ys' =>
      cases ms with
      | nil => simp
      | cons m ms' =>
        rw [List.zip_cons_cons, maskSelect_cons, maskSelect_cons]
        have := ih ys' ms' (by simpa using h)
        cases m <;> simp [this]

theorem maskSelect_map_snd {α β : Type} :
    ∀ (xs : List α) (ys : List β) (ms : List Bool), xs.length = ys.length →
      (maskSelect (xs.zip ys) ms).map Prod.snd = maskSelect ys ms := by
  intro xs
  induction xs with
  | nil =>
    intro ys ms h
    have : ys = [] := List.eq_nil_of_length_eq_zero h.symm
    simp [this]
  | cons x xs ih =>
    intro ys ms h
    cases ys with
    | nil => simp at h
    | cons y ys' =>
      cases ms with
      | nil => simp
      | cons m ms' =>
        rw [List.zip_cons_cons, maskSelect_cons, maskSelect_cons]
        have := ih ys' ms' (by simpa using h)
        cases m <;> simp [this]

theorem maskSelect_replicate_true {ms : List Bool} :
    ∀ (n : Nat), ms.length ≤ n →
      maskSelect (List.replicate n true) ms = List.replicate (ms.count true) true := by
  induction ms with
  | nil => intro n h; simp
  | cons m ms' ih =>
    intro n h
    obtain ⟨k, rfl⟩ : ∃ k, n = k + 1 := ⟨n - 1, by simp at h; omega⟩
    rw [List.replicate_succ, maskSelect_cons]
    have := ih k (by simpa using h)
    cases m <;> simp [List.count_cons, this, List.replicate_succ]

theorem nonnull_filter_impl_eq (lanes : Nat) (hl : 0 < lanes) (vs : List Int)
    (ms : List Bool) (h : vs.length = ms.length) :
    nonnull_filter_impl lanes vs ms = maskSelect vs ms := by
  by_cases hsmall : vs.length < lanes
  · unfold nonnull_filter_impl
    rw [chunksExact_small (Or.inr hsmall), chunksExact_small (Or.inr (h ▸ hsmall))]
    simp
  · push_neg at hsmall
    have hms : lanes ≤ ms.length := h ▸ hsmall
    have ihyp := nonnull_filter_impl_eq lanes hl (vs.drop lanes) (ms.drop lanes)
      (by simp [h])
    unfold nonnull_filter_impl
    rw [chunksExact_step hl hsmall, chunksExact_step hl hms]
    simp only [List.zip_cons_cons, List.flatMap_cons]
    rw [List.append_assoc]
    have hfold : (((chunksExact lanes (vs.drop lanes)).1.zip
          (chunksExact lanes (ms.drop lanes)).1).flatMap (fun p => maskSelect p.1 p.2)) ++
          maskSelect (chunksExact lanes (vs.drop lanes)).2
            (chunksExact lanes (ms.drop lanes)).2 =
        nonnull_filter_impl lanes (vs.drop lanes) (ms.drop lanes) := rfl
    rw [hfold, ihyp]
    rw [← maskSelect_append (by rw [List.length_take, List.length_take, h])]
    rw [List.take_append_drop, List.take_append_drop]
termination_by vs.length
decreasing_by simp; omega

theorem null_filter_core_eq (lanes : Nat) (hl : 0 < lanes) (vs : List Int)
    (ls ms : List Bool) (h1 : vs.length = ls.length) (h2 : vs.length = ms.length) :
    null_filter_core lanes vs ls ms = maskSelect (vs.zip ls) ms := by
  by_cases hsmall : vs.length < lanes
  · unfold null_filter_core
    rw [chunksExact_small (Or.inr hsmall), chunksExact_small (Or.inr (h1 ▸ hsmall)),
      chunksExact_small (Or.inr (h2 ▸ hsmall))]
    simp
  · push_neg at hsmall
    have hls : lanes ≤ ls.length := h1 ▸ hsmall
    have hms : lanes ≤ ms.length := h2 ▸ hsmall
    have ihyp := null_filter_core_eq lanes hl (vs.drop lanes) (ls.drop lanes)
      (ms.drop lanes) (by simp [h1]) (by simp [h2])
    unfold null_filter_core
    rw [chunksExact_step hl hsmall, chunksExact_step hl hls, chunksExact_step hl hms]
    simp only [List.zip_cons_cons, List.flatMap_cons]
    rw [List.append_assoc]
    have hfold : ((((chunksExact lanes (vs.drop lanes)).1.zip
          (chunksExact lanes (ls.drop lanes)).1).zip
          (chunksExact lanes (ms.drop lanes)).1).flatMap
            (fun p => maskSelect (p.1.1.zip p.1.2) p.2)) ++
          maskSelect ((chunksExact lanes (vs.drop lanes)).2.zip
            (chunksExact lanes (ls.drop lanes)).2)
            (chunksExact lanes (ms.drop lanes)).2 =
        null_filter_core lanes (vs.drop lanes) (ls.drop lanes) (ms.drop lanes) := rfl
    rw [hfold, ihyp]
    have hzip : (vs.take lanes).zip (ls.take lanes) ++ (vs.drop lanes).zip (ls.drop lanes) =
        vs.zip ls := by
      rw [← List.zip_append (by simp; omega)]
      rw [List.take_append_drop, List.take_append_drop]
    rw [← maskSelect_append (by simp; omega)]
    rw [hzip, List.take_append_drop]
termination_by vs.length
decreasing_by simp; omega

theorem pushRun_bounds {tail : List (Nat × Nat)} {i m : Nat}
    (htail : ∀ r ∈ tail, r.1 + r.2 ≤ m) (him : i + 1 ≤ m) :
    ∀ r ∈ pushRun i tail, r.1 + r.2 ≤ m := by
  intro r hr
  match tail, htail with
  | [], _ =>
    simp [pushRun] at hr
    subst hr
    simpa using him
  | (s, l) :: rs, htail =>
    rw [pushRun] at hr
    by_cases hs : s = i + 1
    · rw [if_pos hs] at hr
      rcases List.mem_cons.mp hr with hr1 | hr2
      · have := htail (s, l) (List.mem_cons_self _ _)
        subst hr1
        simp at this ⊢
        omega
      · exact htail r (List.mem_cons.mpr (Or.inr hr2))
    · rw [if_neg hs] at hr
      rcases List.mem_cons.mp hr with hr1 | hr2
      · subst hr1
        simpa using him
      · exact htail r hr2

theorem pushRun_flatMap {α : Type} {vs : List α} {i : Nat} (hi : i < vs.length)
    (tail : List (Nat × Nat)) :
    (pushRun i tail).flatMap (fun r => (vs.drop r.1).take r.2) =
      vs[i] :: tail.flatMap (fun r => (vs.drop r.1).take r.2) := by
  have hd : vs.drop i = vs[i] :: vs.drop (i + 1) := (List.getElem_cons_drop vs i hi).symm
  match tail with
  | [] =>
    rw [pushRun, List.flatMap_cons, hd, List.take_succ_cons, List.take_zero]
    simp
  | (s, l) :: rs =>
    rw [pushRun]
    by_cases hs : s = i + 1
    · rw [if_pos hs]
      subst hs
      rw [List.flatMap_cons, List.flatMap_cons, hd, List.take_succ_cons]
      simp
    · rw [if_neg hs]
      rw [List.flatMap_cons, hd, List.take_succ_cons, List.take_zero]
      simp

theorem slicesRunsGo_bounds :
    ∀ (bits : List Bool) (i : Nat), ∀ r ∈ slicesRunsGo i bits,
      r.1 + r.2 ≤ i + bits.length := by
  intro bits
  induction bits with
  | nil => intro i r hr; simp [slicesRunsGo] at hr
  | cons b rest ih =>
    intro i r hr
    simp only [slicesRunsGo] at hr
    by_cases hb : b
    · rw [if_pos hb] at hr
      refine pushRun_bounds (fun q hq => ?_) (by simp) r hr
      have := ih (i + 1) q hq
      simp at this ⊢
      omega
    · rw [if_neg hb] at hr
      have := ih (i + 1) r hr
      simp at this ⊢
      omega

theorem slicesRunsGo_flatMap {α : Type} :
    ∀ (bits : List Bool) (i : Nat) (vs : List α), i + bits.length ≤ vs.length →
      (slicesRunsGo i bits).flatMap (fun r => (vs.drop r.1).take r.2) =
        maskSelect (vs.drop i) bits := by
  intro bits
  induction bits with
  | nil => intro i vs h; simp [slicesRunsGo]
  | cons b rest ih =>
    intro i vs h
    have hi : i < vs.length := by simp at h; omega
    have hd : vs.drop i = vs[i] :: vs.drop (i + 1) := (List.getElem_cons_drop vs i hi).symm
    have ihyp := ih (i + 1) vs (by simp at h ⊢; omega)
    simp only [slicesRunsGo]
    by_cases hb : b
    · rw [if_pos hb]
      subst hb
      rw [pushRun_flatMap hi, ihyp, hd, maskSelect_cons, if_pos rfl]
    · rw [if_neg hb]
      have hbf : b = false := Bool.eq_false_iff.mpr hb
      subst hbf
      rw [hd, maskSelect_cons, if_neg (by simp), ihyp]

theorem runsInBounds_slices {bits : List Bool} {len : Nat} (h : bits.length ≤ len) :
    runsInBounds (slicesRuns bits) len = true := by
  rw [runsInBounds, List.all_eq_true]
  intro r hr
  have := slicesRunsGo_bounds bits 0 r hr
  simp only [decide_eq_true_eq]
  omega

theorem growableRuns_slices {α : Type} {vs : List α} {bits : List Bool}
    (h : bits.length ≤ vs.length) :
    growableRuns vs (slicesRuns bits) = maskSelect vs bits := by
  have := slicesRunsGo_flatMap bits 0 vs (by omega)
  simpa [growableRuns, slicesRuns] using this

theorem validityBits_length {val : Option Bitmap} {n : Nat}
    (h : validityLenOk val n = true) : (validityBits val n).length = n := by
  cases val with
  | none => simp [validityBits]
  | some b =>
    simp only [validityLenOk, beq_iff_eq] at h
    simpa [validityBits, Bitmap.len] using h

theorem mutableIntoOption_all_true {bs : List Bool} {n : Nat} (h : bs.length ≤ n) :
    mutableIntoOption (maskSelect (List.replicate n true) bs) = none := by
  rw [maskSelect_replicate_true n h, mutableIntoOption]
  simp

theorem validityBits_mutableIntoOption {bs : List Bool} {n : Nat} (h : bs.length = n) :
    validityBits (mutableIntoOption bs) n = bs := by
  rw [mutableIntoOption]
  by_cases hc : bs.count false > 0
  · rw [if_pos hc]
    rfl
  · rw [if_neg hc]
    simp only [validityBits]
    have hall : ∀ x ∈ bs, x = true := by
      intro x hx
      by_contra hxf
      have : x = false := Bool.eq_false_iff.mpr hxf
      subst this
      have := List.count_pos_iff.mpr hx
      omega
    subst h
    exact (List.eq_replicate_iff.mpr ⟨rfl, hall⟩).symm

theorem zip_replicate_countP (l : List Bool) :
    ((l.zip (List.replicate l.length true)).countP (fun p => p.1 && p.2)) =
      l.count true := by
  induction l with
  | nil => simp
  | cons x xs ih =>
    rw [List.length_cons, List.replicate_succ, List.zip_cons_cons, List.countP_cons,
      List.count_cons]
    cases x <;> simp [ih]

theorem effectiveCount_none {m : BooleanArray} (h : m.validity = none) :
    effectiveCount m = m.values.bits.count true := by
  rw [effectiveCount, h]
  exact zip_replicate_countP m.values.bits

theorem effectiveCount_some {m : BooleanArray} {v : Bitmap} (h : m.validity = some v) :
    effectiveCount m = (m.values.and v).bits.count true := by
  rw [effectiveCount, h, Bitmap.and]
  show _ = ((m.values.bits.zip v.bits).map (fun p => p.1 && p.2)).count true
  rw [List.count, List.countP_map]
  apply List.countP_congr
  intro p _
  simp [validityBits, Function.comp]

theorem filter_nonnull_primitive_spec (p : PrimitiveArray) (mask : Bitmap)
    (hv : validityLenOk p.validity p.values.length = true)
    (hlen : p.values.length = mask.len) :
    filter_nonnull_primitive p mask =
      .ok { data_type := p.data_type
            values := maskSelect p.values mask.bits
            validity := mutableIntoOption
              (maskSelect (validityBits p.validity p.values.length) mask.bits) } := by
  have hlanes : 0 < LANES := by simp [LANES]
  have hbits : p.values.length = mask.bits.length := hlen
  rw [filter_nonnull_primitive, if_neg (by omega)]
  cases hval : p.validity with
  | none =>
    rw [nonnull_filter_simd, if_neg (by omega)]
    rw [nonnull_filter_impl_eq LANES hlanes p.values mask.bits hbits]
    have hmio : mutableIntoOption
        (maskSelect (validityBits none p.values.length) mask.bits) = none := by
      simp only [validityBits]
      exact mutableIntoOption_all_true (le_of_eq hbits.symm)
    rw [hmio]
  | some v =>
    rw [hval] at hv
    simp only [validityLenOk, beq_iff_eq, Bitmap.len] at hv
    have hsimd : null_filter_simd p.values v mask =
        .ok (maskSelect p.values mask.bits, maskSelect v.bits mask.bits) := by
      unfold null_filter_simd
      rw [if_neg (by omega)]
      rw [null_filter_impl,
        null_filter_core_eq LANES hlanes p.values v.bits mask.bits hv.symm hbits,
        maskSelect_map_fst p.values v.bits mask.bits hv.symm,
        maskSelect_map_snd p.values v.bits mask.bits hv.symm]
    simp only [hsimd, validityBits]

theorem growableFilter_spec (a : ArrayD) (bits : List Bool)
    (hwf : a.wfb = true) (hlen : bits.length = a.len) :
    growableFilter a (slicesRuns bits) = .ok (mkFiltered a bits) := by
  rw [ArrayD.wfb, Bool.and_eq_true] at hwf
  obtain ⟨hdc, hvl⟩ := hwf
  rw [growableFilter, if_neg (by simp [hdc]),
    if_neg (by simp [runsInBounds_slices (le_of_eq hlen)])]
  cases a with
  | primitive p =>
    simp only [ArrayD.len] at hlen
    simp only [ArrayD.validity, ArrayD.len] at hvl
    dsimp only [ArrayD.validity, ArrayD.len, mkFiltered]
    rw [growableRuns_slices (le_of_eq hlen),
      growableRuns_slices (le_of_eq (by rw [validityBits_length hvl, hlen]))]
  | boolean b =>
    simp only [ArrayD.len, BooleanArray.len, Bitmap.len] at hlen
    simp only [ArrayD.validity, ArrayD.len, BooleanArray.len, Bitmap.len] at hvl
    dsimp only [ArrayD.validity, ArrayD.len, BooleanArray.len, Bitmap.len, mkFiltered]
    rw [growableRuns_slices (le_of_eq hlen),
      growableRuns_slices (le_of_eq (by rw [validityBits_length hvl, hlen]))]
  | utf8 u =>
    simp only [ArrayD.len] at hlen
    simp only [ArrayD.validity, ArrayD.len] at hvl
    dsimp only [ArrayD.validity, ArrayD.len, mkFiltered]
    rw [growableRuns_slices (le_of_eq hlen),
      growableRuns_slices (le_of_eq (by rw [validityBits_length hvl, hlen]))]

theorem filterDispatch_spec (a : ArrayD) (m : BooleanArray)
    (hwf : a.wfb = true) (hlen : a.len = m.len) :
    filterDispatch a m = .ok (.ok (mkFiltered a m.values.bits)) := by
  have hbits : (m.values.bits).length = a.len := hlen.symm
  cases a with
  | primitive p =>
    have hdc : p.data_type.to_physical_type = PhysicalType.primitiveInt32 := by
      have := (Bool.and_eq_true _ _).mp hwf
      simpa [ArrayD.downcastOk] using this.1
    have hv : validityLenOk p.validity p.values.length = true := by
      have := (Bool.and_eq_true _ _).mp hwf
      simpa [ArrayD.validity, ArrayD.len] using this.2
    simp only [filterDispatch, ArrayD.data_type, hdc]
    rw [filter_primitive,
      filter_nonnull_primitive_spec p m.values hv (by simpa [ArrayD.len] using hlen)]
    rfl
  | boolean b =>
    have hdc : b.data_type.to_physical_type = PhysicalType.boolean := by
      have := (Bool.and_eq_true _ _).mp hwf
      simpa [ArrayD.downcastOk] using this.1
    simp only [filterDispatch, ArrayD.data_type, hdc]
    rw [growableFilter_spec _ _ hwf hbits]
  | utf8 u =>
    have hdc : u.data_type.to_physical_type = PhysicalType.utf8 ∨
        u.data_type.to_physical_type = PhysicalType.largeUtf8 := by
      have := (Bool.and_eq_true _ _).mp hwf
      simpa [ArrayD.downcastOk] using this.1
    rcases hdc with hdc | hdc <;>
      · simp only [filterDispatch, ArrayD.data_type, hdc]
        rw [growableFilter_spec _ _ hwf hbits]

theorem build_filter_closure_spec (m : BooleanArray) (a : ArrayD)
    (hwf : a.wfb = true) (hlen : a.len = m.len) :
    build_filter_closure m a = .ok (mkFiltered a m.values.bits) := by
  have hbits : (m.values.bits).length = a.len := hlen.symm
  cases a with
  | primitive p =>
    have hdc : p.data_type.to_physical_type = PhysicalType.primitiveInt32 := by
      have := (Bool.and_eq_true _ _).mp hwf
      simpa [ArrayD.downcastOk] using this.1
    simp only [build_filter_closure, ArrayD.data_type, hdc]
    rw [growableFilter_spec _ _ hwf hbits]
  | boolean b =>
    have hdc : b.data_type.to_physical_type = PhysicalType.boolean := by
      have := (Bool.and_eq_true _ _).mp hwf
      simpa [ArrayD.downcastOk] using this.1
    simp only [build_filter_closure, ArrayD.data_type, hdc]
    rw [growableFilter_spec _ _ hwf hbits]
  | utf8 u =>
    have hdc : u.data_type.to_physical_type = PhysicalType.utf8 ∨
        u.data_type.to_physical_type = PhysicalType.largeUtf8 := by
      have := (Bool.and_eq_true _ _).mp hwf
      simpa [ArrayD.downcastOk] using this.1
    rcases hdc with hdc | hdc <;>
      · simp only [build_filter_closure, ArrayD.data_type, hdc]
        rw [growableFilter_spec _ _ hwf hbits]

theorem mkFiltered_len {a : ArrayD} {bits : List Bool}
    (hwf : a.wfb = true) (hlen : bits.length = a.len) :
    (mkFiltered a bits).len = bits.count true ∧
      (mkFiltered a bits).data_type = a.data_type := by
  cases a with
  | primitive p =>
    refine ⟨?_, rfl⟩
    simp only [mkFiltered, ArrayD.len]
    exact maskSelect_length p.values bits (by simpa [ArrayD.len] using hlen.symm)
  | boolean b =>
    refine ⟨?_, rfl⟩
    simp only [mkFiltered, ArrayD.len, BooleanArray.len, Bitmap.len]
    exact maskSelect_length b.values.bits bits
      (by simpa [ArrayD.len, BooleanArray.len, Bitmap.len] using hlen.symm)
  | utf8 u =>
    refine ⟨?_, rfl⟩
    simp only [mkFiltered, ArrayD.len]
    exact maskSelect_length u.values bits (by simpa [ArrayD.len] using hlen.symm)

theorem filter_mask_nonnull {a : ArrayD} {m : BooleanArray} (h : m.validity = none) :
    filter a m = filterDispatch a m := by
  unfold filter
  rw [h]

theorem filter_mask_null {a : ArrayD} {m : BooleanArray} {v : Bitmap}
    (h : m.validity = some v) :
    filter a m = filterDispatch a
      { data_type := DataType.flat FlatType.Boolean
        values := m.values.and v
        validity := none } := by
  unfold filter
  rw [h]

theorem bitmap_and_length {a b : Bitmap} (h : a.len = b.len) :
    (a.and b).len = a.len := by
  simp [Bitmap.and, Bitmap.len] at h ⊢
  omega

/-! Claim theorems. -/

/-- C1 (amended): for every well-formed array `A` and mask `M` of the same
length carrying no validity bitmap, the function returned by `build_filter(M)`
applied to `A` yields exactly the result of `filter(A, M)`.  (The original
claim extends this to masks with null slots; `compiled_filter_null_mask_cex`
refutes that part: `build_filter` reads only the mask's values bitmap.) -/
theorem compiled_filter_equiv (a : ArrayD) (m : BooleanArray)
    (hwf : a.wfb = true) (hv : m.validity = none) (hlen : a.len = m.len) :
    build_filter m = .ok (build_filter_closure m) ∧
    ∃ r, build_filter_closure m a = .ok r ∧ filter a m = .ok (.ok r) := by
  refine ⟨rfl, mkFiltered a m.values.bits, build_filter_closure_spec m a hwf hlen, ?_⟩
  rw [filter_mask_nonnull hv]
  exact filterDispatch_spec a m hwf hlen

/-- C1 witness: spec scenario 1 — `A = [5,6,7,8,9]` (int32, no nulls),
`M = [true,false,false,true,false]` without validity. -/
theorem compiled_filter_equiv_witness :
    build_filter ⟨.flat .Boolean, ⟨[true, false, false, true, false]⟩, none⟩ =
      .ok (build_filter_closure ⟨.flat .Boolean, ⟨[true, false, false, true, false]⟩, none⟩) ∧
    ∃ r, build_filter_closure ⟨.flat .Boolean, ⟨[true, false, false, true, false]⟩, none⟩
        (.primitive ⟨.flat .Int32, [5, 6, 7, 8, 9], none⟩) = .ok r ∧
      filter (.primitive ⟨.flat .Int32, [5, 6, 7, 8, 9], none⟩)
        ⟨.flat .Boolean, ⟨[true, false, false, true, false]⟩, none⟩ = .ok (.ok r) :=
  compiled_filter_equiv (.primitive ⟨.flat .Int32, [5, 6, 7, 8, 9], none⟩)
    ⟨.flat .Boolean, ⟨[true, false, false, true, false]⟩, none⟩ rfl rfl rfl

/-- C1 counterexample: with `A = [1, 2]` and `M` whose values are
`[true, true]` but whose validity is `[1, 0]` (slot 1 null), `filter` selects
only `[1]` while the compiled filter of `M` selects `[1, 2]`: the two results
differ, so the compiled-filter equivalence fails for masks with null slots. -/
theorem compiled_filter_null_mask_cex :
    filter (.primitive ⟨.flat .Int32, [1, 2], none⟩)
        ⟨.flat .Boolean, ⟨[true, true]⟩, some ⟨[true, false]⟩⟩ =
      .ok (.ok (.primitive ⟨.flat .Int32, [1], none⟩)) ∧
    build_filter_closure ⟨.flat .Boolean, ⟨[true, true]⟩, some ⟨[true, false]⟩⟩
        (.primitive ⟨.flat .Int32, [1, 2], none⟩) =
      .ok (.primitive ⟨.flat .Int32, [1, 2], none⟩) ∧
    (ArrayD.primitive ⟨.flat .Int32, [1], none⟩) ≠
      (ArrayD.primitive ⟨.flat .Int32, [1, 2], none⟩) :=
  ⟨rfl, rfl, by decide⟩

/-- C3: for every well-formed array `A` and mask `M` of equal length,
`filter(A, M)` succeeds and the result's length is the number of slots of `M`
that are non-null with a set value bit; the result keeps `A`'s data type (so an
all-false or all-null mask yields a zero-length array of the same type). -/
theorem filter_count_law (a : ArrayD) (m : BooleanArray)
    (hwf : a.wfb = true) (hm : m.wfb = true) (hlen : a.len = m.len) :
    ∃ r, filter a m = .ok (.ok r) ∧ r.len = effectiveCount m ∧
      r.data_type = a.data_type := by
  cases hv : m.validity with
  | none =>
    have hb : (m.values.bits).length = a.len := by
      simpa [BooleanArray.len, Bitmap.len] using hlen.symm
    refine ⟨mkFiltered a m.values.bits, ?_, ?_, (mkFiltered_len hwf hb).2⟩
    · rw [filter_mask_nonnull hv]
      exact filterDispatch_spec a m hwf hlen
    · rw [(mkFiltered_len hwf hb).1, effectiveCount_none hv]
  | some v =>
    have hvlen : v.len = m.len := by
      rw [BooleanArray.wfb, hv] at hm
      simpa [validityLenOk] using hm
    have handb : ((m.values.and v).bits).length = a.len := by
      have h1 : m.values.len = m.len := rfl
      have := bitmap_and_length (a := m.values) (b := v) (by rw [h1, hvlen])
      rw [hlen]
      simpa [Bitmap.len] using this
    refine ⟨mkFiltered a (m.values.and v).bits, ?_, ?_, (mkFiltered_len hwf handb).2⟩
    · rw [filter_mask_null hv]
      refine filterDispatch_spec a _ hwf ?_
      simpa [BooleanArray.len, Bitmap.len] using handb.symm
    · rw [(mkFiltered_len hwf handb).1, effectiveCount_some hv]

/-- C3 witness: spec scenario 1 instance — the filtered length equals the
effective count (2) and the data type is preserved. -/
theorem filter_count_law_witness :
    ∃ r, filter (.primitive ⟨.flat .Int32, [5, 6, 7, 8, 9], none⟩)
        ⟨.flat .Boolean, ⟨[true, false, false, true, false]⟩, none⟩ = .ok (.ok r) ∧
      r.len = effectiveCount ⟨.flat .Boolean, ⟨[true, false, false, true, false]⟩, none⟩ ∧
      r.data_type = .flat .Int32 :=
  filter_count_law (.primitive ⟨.flat .Int32, [5, 6, 7, 8, 9], none⟩)
    ⟨.flat .Boolean, ⟨[true, false, false, true, false]⟩, none⟩ rfl rfl rfl

/-- C5 (amended): when the source array carries a validity bitmap and the mask
has no nulls, every selected slot's value and validity bit are copied together:
the result is exactly the mask-selection of values, and its validity bits are
exactly the mask-selection of the source validity bits (slot-aligned).  The
claim's concrete example holds with `M = [true, true, false]`; its original
all-true mask selects all three slots (`filter_validity_copy_cex`). -/
theorem filter_validity_copy (a : ArrayD) (v : Bitmap) (m : BooleanArray)
    (hwf : a.wfb = true) (hav : a.validity = some v) (hmv : m.validity = none)
    (hlen : a.len = m.len) :
    filter a m = .ok (.ok (mkFiltered a m.values.bits)) ∧
    validityBits (mkFiltered a m.values.bits).validity ((m.values.bits).count true) =
      maskSelect v.bits m.values.bits := by
  constructor
  · rw [filter_mask_nonnull hmv]
    exact filterDispatch_spec a m hwf hlen
  · have hmkv : (mkFiltered a m.values.bits).validity =
        mutableIntoOption (maskSelect (validityBits a.validity a.len) m.values.bits) := by
      cases a <;> rfl
    have hvlen : v.len = a.len := by
      rw [ArrayD.wfb, Bool.and_eq_true] at hwf
      have := hwf.2
      rw [hav] at this
      simpa [validityLenOk] using this
    rw [hmkv, hav]
    simp only [validityBits]
    apply validityBits_mutableIntoOption
    apply maskSelect_length
    have : (m.values.bits).length = m.len := rfl
    rw [this, ← hlen, ← hvlen]
    rfl

/-- C5 witness: the amended concrete scenario — `A = Boolean [true, null,
false]` with validity `[1,0,1]`, `M = [true, true, false]` (no nulls) gives
`[true, null]`: values `[1,0]` with validity `[1,0]`. -/
theorem filter_validity_copy_witness :
    filter (.boolean ⟨.flat .Boolean, ⟨[true, false, false]⟩, some ⟨[true, false, true]⟩⟩)
        ⟨.flat .Boolean, ⟨[true, true, false]⟩, none⟩ =
      .ok (.ok (.boolean ⟨.flat .Boolean, ⟨[true, false]⟩, some ⟨[true, false]⟩⟩)) :=
  (filter_validity_copy
    (.boolean ⟨.flat .Boolean, ⟨[true, false, false]⟩, some ⟨[true, false, true]⟩⟩)
    ⟨[true, false, true]⟩
    ⟨.flat .Boolean, ⟨[true, true, false]⟩, none⟩ rfl rfl rfl rfl).1

/-- C5 counterexample: the claim's concrete example is wrong on the code: with
`A = Boolean [true, null, false]` (validity `[1,0,1]`) and the all-true mask
`M = [true, true, true]`, `filter` selects all three slots, producing
`[true, null, false]` with validity `[1,0,1]` — not the claimed two-slot
`[true, null]` with validity `[1,0]`. -/
theorem filter_validity_copy_cex :
    filter (.boolean ⟨.flat .Boolean, ⟨[true, false, false]⟩, some ⟨[true, false, true]⟩⟩)
        ⟨.flat .Boolean, ⟨[true, true, true]⟩, none⟩ =
      .ok (.ok (.boolean ⟨.flat .Boolean, ⟨[true, false, false]⟩,
        some ⟨[true, false, true]⟩⟩)) ∧
    (ArrayD.boolean ⟨.flat .Boolean, ⟨[true, false, false]⟩, some ⟨[true, false, true]⟩⟩) ≠
      (ArrayD.boolean ⟨.flat .Boolean, ⟨[true, false]⟩, some ⟨[true, false]⟩⟩) :=
  ⟨rfl, by decide⟩

theorem filterDispatch_no_error (a : ArrayD) (m : BooleanArray) (e : ArrowError) :
    filterDispatch a m ≠ .ok (.error e) := by
  unfold filterDispatch
  split
  all_goals try split
  all_goals try split
  all_goals simp

/-- C2 (amended): `filter` performs no length-compatibility validation and no
path returns a recoverable length-mismatch error: (1) no call ever returns a
typed error; (2) for primitive arrays a length mismatch aborts with an
assertion failure; (3) for non-primitive arrays a shorter mask succeeds,
silently filtering only the covered prefix. -/
theorem filter_no_length_error :
    (∀ (a : ArrayD) (m : BooleanArray) (e : ArrowError),
      filter a m ≠ .ok (.error e)) ∧
    (∀ (p : PrimitiveArray) (m : BooleanArray), m.validity = none →
      p.data_type.to_physical_type = PhysicalType.primitiveInt32 →
      p.values.length ≠ m.len →
      ∃ msg, filter (.primitive p) m = .panic msg) ∧
    (∀ (b : BooleanArray) (m : BooleanArray), m.validity = none →
      b.data_type.to_physical_type = PhysicalType.boolean →
      m.len ≤ b.len →
      ∃ r, filter (.boolean b) m = .ok (.ok r)) := by
  refine ⟨?_, ?_, ?_⟩
  · intro a m e
    cases hv : m.validity with
    | none => rw [filter_mask_nonnull hv]; exact filterDispatch_no_error a m e
    | some v => rw [filter_mask_null hv]; exact filterDispatch_no_error a _ e
  · intro p m hmv hphys hne
    rw [filter_mask_nonnull hmv]
    simp only [filterDispatch, ArrayD.data_type, hphys]
    rw [filter_primitive, filter_nonnull_primitive,
      if_pos (show p.values.length ≠ m.values.len from hne)]
    exact ⟨_, rfl⟩
  · intro b m hmv hphys hle
    rw [filter_mask_nonnull hmv]
    simp only [filterDispatch, ArrayD.data_type, hphys]
    have hgf : growableFilter (.boolean b) (slicesRuns m.values.bits) =
        .ok (mkFiltered (.boolean b) m.values.bits) ∨
        ∃ r, growableFilter (.boolean b) (slicesRuns m.values.bits) = .ok r := by
      right
      rw [growableFilter, if_neg (by simp [ArrayD.downcastOk, hphys]),
        if_neg (by
          simp only [Bool.not_eq_true]
          rw [runsInBounds_slices (le_of_eq rfl |>.trans ?_)]
          · simp
          · simpa [ArrayD.len] using hle)]
      exact ⟨_, rfl⟩
    rcases hgf with hgf | ⟨r, hr⟩
    · rw [hgf]; exact ⟨_, rfl⟩
    · rw [hr]; exact ⟨r, rfl⟩

/-- C2 witness: concrete instances of the three amended parts, at a length-3
boolean array, a length-3 primitive array and the length-1 mask `[true]`. -/
theorem filter_no_length_error_witness :
    (filter (.boolean ⟨.flat .Boolean, ⟨[true, true, true]⟩, none⟩)
        ⟨.flat .Boolean, ⟨[true]⟩, none⟩ ≠
      .ok (.error (.invalidArgumentError "length mismatch"))) ∧
    (∃ msg, filter (.primitive ⟨.flat .Int32, [5, 6, 7], none⟩)
        ⟨.flat .Boolean, ⟨[true]⟩, none⟩ = .panic msg) ∧
    (∃ r, filter (.boolean ⟨.flat .Boolean, ⟨[true, true, true]⟩, none⟩)
        ⟨.flat .Boolean, ⟨[true]⟩, none⟩ = .ok (.ok r)) :=
  ⟨filter_no_length_error.1 _ _ _,
   filter_no_length_error.2.1 _ _ rfl rfl (by decide),
   filter_no_length_error.2.2 _ _ rfl rfl (by decide)⟩

/-- C2 counterexample: a boolean array of length 3 filtered by a mask of
length 1 returns a successful `Ok` result (the prefix filtered), not the
recoverable length-mismatch error the claim requires for every variant. -/
theorem filter_length_mismatch_cex :
    filter (.boolean ⟨.flat .Boolean, ⟨[true, true, true]⟩, none⟩)
        ⟨.flat .Boolean, ⟨[true]⟩, none⟩ =
      .ok (.ok (.boolean ⟨.flat .Boolean, ⟨[true]⟩, none⟩)) := rfl

/-- C4 (code bug): slicing a dense union narrows `types` but neither re-bases
`offsets` nor consults the accumulated `offset` in `field_slot`, so reading a
sliced union diverges from reading the original at the corresponding slot.
With the dense union over one int32 field `[10, 20]`, `types = [0, 0]` and
`offsets = [0, 1]`, the valid slice `(1, 1)` read at position 0 yields 10
(in-field position `offsets[0] = 0`), while the original read at position
`1 + 0` yields 20. -/
theorem union_slice_read_divergence :
    UnionArray.from_data (.union [("a", .Int32)] none .Dense) [0, 0]
        [.primitive ⟨.flat .Int32, [10, 20], none⟩] (some [0, 1]) =
      .ok ⟨[0, 0], none, [.primitive ⟨.flat .Int32, [10, 20], none⟩], some [0, 1],
        .union [("a", .Int32)] none .Dense, 0⟩ ∧
    1 + 1 ≤ UnionArray.len ⟨[0, 0], none, [.primitive ⟨.flat .Int32, [10, 20], none⟩],
      some [0, 1], .union [("a", .Int32)] none .Dense, 0⟩ ∧
    UnionArray.slice ⟨[0, 0], none, [.primitive ⟨.flat .Int32, [10, 20], none⟩],
        some [0, 1], .union [("a", .Int32)] none .Dense, 0⟩ 1 1 =
      .ok ⟨[0], none, [.primitive ⟨.flat .Int32, [10, 20], none⟩], some [0, 1],
        .union [("a", .Int32)] none .Dense, 1⟩ ∧
    UnionArray.value ⟨[0], none, [.primitive ⟨.flat .Int32, [10, 20], none⟩],
        some [0, 1], .union [("a", .Int32)] none .Dense, 1⟩ 0 =
      some (.intS true 10) ∧
    UnionArray.value ⟨[0, 0], none, [.primitive ⟨.flat .Int32, [10, 20], none⟩],
        some [0, 1], .union [("a", .Int32)] none .Dense, 0⟩ 1 =
      some (.intS true 20) ∧
    (some (ScalarV.intS true 10) ≠ some (ScalarV.intS true 20)) :=
  ⟨rfl, by decide, rfl, rfl, rfl, by decide⟩

/-- C6: `with_validity` on a boolean array aborts exactly when handed a bitmap
whose length disagrees with the array's; otherwise it returns a new array with
the validity replaced (not merged) and the values, data type and length
untouched. -/
theorem with_validity_spec (a : BooleanArray) (v : Option Bitmap) :
    ((∃ b, v = some b ∧ b.len ≠ a.len) →
      a.with_validity v = .panic "validity should be as least as large as the array") ∧
    ((∀ b, v = some b → b.len = a.len) →
      a.with_validity v = .ok { data_type := a.data_type, values := a.values, validity := v } ∧
      BooleanArray.len { data_type := a.data_type, values := a.values, validity := v } = a.len) := by
  constructor
  · rintro ⟨b, rfl, hb⟩
    rw [BooleanArray.with_validity, if_pos (by simpa [bne_iff_ne] using hb)]
  · intro hok
    refine ⟨?_, rfl⟩
    cases v with
    | none =>
      rw [BooleanArray.with_validity]
      simp
    | some b =>
      rw [BooleanArray.with_validity, if_neg (by simp [bne_iff_ne, hok b rfl])]

/-- C6 witness: a length-2 array rejects a length-1 bitmap with an abort, and
replaces its existing validity by `none` otherwise (not merging it). -/
theorem with_validity_spec_witness :
    (BooleanArray.with_validity ⟨.flat .Boolean, ⟨[true, false]⟩, none⟩ (some ⟨[true]⟩) =
      .panic "validity should be as least as large as the array") ∧
    (BooleanArray.with_validity ⟨.flat .Boolean, ⟨[true, false]⟩, some ⟨[true, true]⟩⟩ none =
      .ok ⟨.flat .Boolean, ⟨[true, false]⟩, none⟩) :=
  ⟨(with_validity_spec _ _).1 ⟨⟨[true]⟩, rfl, by decide⟩,
   ((with_validity_spec _ _).2 (fun b hb => by cases hb)).1⟩

/-- C7 (amended): `UnionArray::from_data` fails by a fatal abort (not a typed
error result) exactly when the field count disagrees with the declared
members, some field's logical type disagrees with the declared member's, or
offsets presence disagrees with the union mode; and it succeeds for every
other input — in particular it validates nothing about the contents of
`types` or `offsets` (the failure condition does not mention them). -/
theorem from_data_validation (fdecl : List (String × FlatType)) (ids : Option (List Int))
    (mode : UnionMode) (types : List Int) (fields : List ArrayD)
    (offsets : Option (List Int)) :
    ((∃ msg, UnionArray.from_data (.union fdecl ids mode) types fields offsets =
        .panic msg) ↔
      (fdecl.length ≠ fields.length ∨
       (∃ p ∈ fdecl.zip fields, DataType.flat p.1.2 ≠ p.2.data_type) ∨
       offsets.isNone ≠ mode.is_sparse)) ∧
    (¬ (fdecl.length ≠ fields.length ∨
       (∃ p ∈ fdecl.zip fields, DataType.flat p.1.2 ≠ p.2.data_type) ∨
       offsets.isNone ≠ mode.is_sparse) →
      ∃ u, UnionArray.from_data (.union fdecl ids mode) types fields offsets = .ok u) := by
  simp only [UnionArray.from_data, UnionArray.get_all]
  by_cases h1 : fdecl.length ≠ fields.length
  · rw [if_pos h1]
    exact ⟨⟨fun _ => Or.inl h1, fun _ => ⟨_, rfl⟩⟩, fun hn => absurd (Or.inl h1) hn⟩
  · rw [if_neg h1]
    by_cases h2 : ((fdecl.zip fields).all fun p => DataType.flat p.1.2 == p.2.data_type) = true
    · rw [if_neg (by simpa using h2)]
      by_cases h3 : offsets.isNone ≠ mode.is_sparse
      · rw [if_pos h3]
        exact ⟨⟨fun _ => Or.inr (Or.inr h3), fun _ => ⟨_, rfl⟩⟩,
          fun hn => absurd (Or.inr (Or.inr h3)) hn⟩
      · rw [if_neg h3]
        have hrhs : ¬ (fdecl.length ≠ fields.length ∨
            (∃ p ∈ fdecl.zip fields, DataType.flat p.1.2 ≠ p.2.data_type) ∨
            offsets.isNone ≠ mode.is_sparse) := by
          rw [List.all_eq_true] at h2
          rintro (hc | hc | hc)
          · exact h1 hc
          · obtain ⟨p, hp, hne⟩ := hc
            exact hne (by simpa [beq_iff_eq] using h2 p hp)
          · exact h3 hc
        refine ⟨⟨?_, fun hc => absurd hc hrhs⟩, fun _ => ⟨_, rfl⟩⟩
        rintro ⟨msg, hmsg⟩
        cases hmsg
    · rw [if_pos (by simpa using h2)]
      have hmid : ∃ p ∈ fdecl.zip fields, DataType.flat p.1.2 ≠ p.2.data_type := by
        rw [List.all_eq_true] at h2
        push_neg at h2
        obtain ⟨p, hp, hne⟩ := h2
        exact ⟨p, hp, by simpa [beq_iff_eq] using hne⟩
      exact ⟨⟨fun _ => Or.inr (Or.inl hmid), fun _ => ⟨_, rfl⟩⟩,
        fun hn => absurd (Or.inr (Or.inl hmid)) hn⟩


/-- C7 witness: a structurally valid construction with an invalid discriminant
byte (99) and an out-of-bounds offset (1000) succeeds — no validation of
`types`/`offsets` contents happens. -/
theorem from_data_validation_witness :
    ∃ u, UnionArray.from_data (.union [("a", .Int32)] none .Dense) [99]
        [.primitive ⟨.flat .Int32, [10, 20], none⟩] (some [1000]) = .ok u :=
  (from_data_validation [("a", .Int32)] none .Dense [99]
    [.primitive ⟨.flat .Int32, [10, 20], none⟩] (some [1000])).2 (by decide)

/-- C7 counterexample: a malformed construction (one declared member, zero
fields supplied) makes `from_data` abort fatally (a panic), not return the
typed, recoverable error result the claim requires per §7. -/
theorem from_data_panic_cex :
    UnionArray.from_data (.union [("a", .Int32)] none .Sparse) [] [] none =
      .panic "The number of fields must equal the number of fields in the Union DataType" :=
  rfl

/-- C8: reading slot `i` of an (unsliced) union resolves the discriminant
`types[i]`, the field index (via the discriminant hash when present, else the
discriminant itself as an index) and the in-field position (`offsets[i]` when
dense, `i` itself when sparse). -/
theorem union_index_resolution (u : UnionArray) (i : Nat) (type_ : Int)
    (fidx slot : Nat)
    (ht : u.types.get? i = some type_)
    (hf : (match u.fields_hash with
           | some h => List.lookup type_ h
           | none => some (intToUsize type_)) = some fidx)
    (hs : (match u.offsets with
           | some x => (x.get? i).map intToUsize
           | none => some i) = some slot) :
    u.index i = some (fidx, slot) := by
  unfold UnionArray.index
  rw [ht]
  dsimp only
  rw [hf]
  dsimp only
  unfold UnionArray.field_slot
  rw [hs]

/-- C8 witness: spec scenario 3 — dense union with members (int32, utf8),
`types = [0,1,0]`, `offsets = [0,0,1]`: slot 1 resolves to the utf8 field
(index 1) at position 0, slot 2 to the int32 field (index 0) at position 1. -/
theorem union_index_resolution_witness :
    UnionArray.from_data (.union [("a", .Int32), ("b", .Utf8)] none .Dense) [0, 1, 0]
        [.primitive ⟨.flat .Int32, [5, 6], none⟩, .utf8 ⟨.flat .Utf8, ["x"], none⟩]
        (some [0, 0, 1]) =
      .ok ⟨[0, 1, 0], none,
        [.primitive ⟨.flat .Int32, [5, 6], none⟩, .utf8 ⟨.flat .Utf8, ["x"], none⟩],
        some [0, 0, 1], .union [("a", .Int32), ("b", .Utf8)] none .Dense, 0⟩ ∧
    UnionArray.index ⟨[0, 1, 0], none,
        [.primitive ⟨.flat .Int32, [5, 6], none⟩, .utf8 ⟨.flat .Utf8, ["x"], none⟩],
        some [0, 0, 1], .union [("a", .Int32), ("b", .Utf8)] none .Dense, 0⟩ 1 =
      some (1, 0) ∧
    UnionArray.index ⟨[0, 1, 0], none,
        [.primitive ⟨.flat .Int32, [5, 6], none⟩, .utf8 ⟨.flat .Utf8, ["x"], none⟩],
        some [0, 0, 1], .union [("a", .Int32), ("b", .Utf8)] none .Dense, 0⟩ 2 =
      some (0, 1) :=
  ⟨rfl,
   union_index_resolution _ 1 1 1 0 rfl rfl rfl,
   union_index_resolution _ 2 0 0 1 rfl rfl rfl⟩

/-- C9: every union array, however constructed, reports no validity bitmap,
and `with_validity` on a union aborts for every argument, `none` included. -/
theorem union_no_validity :
    ∀ (u : UnionArray), u.validity = none ∧
      ∀ (v : Option Bitmap),
        u.with_validity v = .panic "cannot set validity of a union array" :=
  fun _ => ⟨rfl, fun _ => rfl⟩

/-- C10: `BooleanArray::slice(o, l)` returns normally — with a result of
length `l` — precisely when `o + l <= len`, and aborts (before any read) for
every `o, l` with `o + l > len`. -/
theorem boolean_slice_bounds (a : BooleanArray) (o l : Nat) :
    (o + l ≤ a.len → ∃ r, a.slice o l = .ok r ∧ r.len = l) ∧
    (a.len < o + l → ∃ msg, a.slice o l = .panic msg) := by
  constructor
  · intro h
    refine ⟨a.slice_unchecked o l, ?_, ?_⟩
    · rw [BooleanArray.slice, if_pos h]
    · have hlen : a.len = a.values.bits.length := rfl
      simp only [BooleanArray.slice_unchecked, BooleanArray.len, Bitmap.slice_unchecked,
        Bitmap.len, List.length_take, List.length_drop]
      omega
  · intro h
    exact ⟨_, by rw [BooleanArray.slice, if_neg (by omega)]⟩

/-- C10 witness: on a length-3 array, the in-bounds slice `(1, 2)` succeeds
with length 2 (and `(0, 3)` would too), while `(2, 2)` aborts. -/
theorem boolean_slice_bounds_witness :
    (∃ r, BooleanArray.slice ⟨.flat .Boolean, ⟨[true, false, true]⟩, none⟩ 1 2 = .ok r ∧
      r.len = 2) ∧
    (∃ msg, BooleanArray.slice ⟨.flat .Boolean, ⟨[true, false, true]⟩, none⟩ 2 2 =
      .panic msg) :=
  ⟨(boolean_slice_bounds _ 1 2).1 (by decide), (boolean_slice_bounds _ 2 2).2 (by decide)⟩

end Arrow2
